import Mathlib

/-!
Verification of the iCommand semantic-search core.

Shallow embedding of:
* `db.py` — the SQLite-backed vector store (`init_db`, `insert_command`,
  `get_unembedded_commands`, `mark_embedded`, `get_all_embedded_commands`);
* `search.py` — the sync engine (`sync`) and the query engine (`search`),
  with numpy float arithmetic modelled over `ℝ` and `np.argsort` modelled as
  a stable ascending sort (numpy's insertion sort on small inputs);
* `embeddings.py` — the provider factory (`get_provider`) and the lazy
  model loading of `LocalProvider.embed`;
* `tui.py` — the live-query coordinator (`on_search_input_changed`,
  `_debounced_search`, `_run_search`, `_update_results`) as an event-step
  state machine.

Records are Lean structures; the store is the list of rows in rowid order.
SQL `NULL` becomes `Option`; the embedding backend is a parameter
`EmbedFn` returning `Except` (a raised exception is `.error`).
-/

namespace ICommand

/-! ## Vector store (`db.py`) -/

/-- One row of the `commands` table.  `timestamp` is the capture time
(`datetime` strings compare chronologically in the fixed format, so we model
them as naturals); `embedded_at` and `embedding` are the nullable columns. -/
structure CommandRecord where
  id : Nat
  command : String
  directory : Option String
  timestamp : Nat
  embedded_at : Option Nat
  embedding : Option (List ℝ)

instance : Inhabited CommandRecord :=
  ⟨⟨0, "", none, 0, none, none⟩⟩

/-- The store: rows of the `commands` table in rowid (insertion) order. -/
abbrev Store := List CommandRecord

/-- `init_db`: `CREATE TABLE IF NOT EXISTS commands (...)` on a fresh
database yields the empty table; the `ALTER TABLE ... ADD COLUMN embedding`
migration is a no-op on the schema modelled here (the column is present). -/
def init_db : Store := []

/-- `insert_command`: `INSERT INTO commands (command, directory)`; the store
assigns the autoincrement `id` and the default `timestamp`, and both
`embedded_at` and `embedding` start as NULL. -/
def insert_command (s : Store) (newId : Nat) (cmd : String)
    (dir : Option String) (t : Nat) : Store :=
  s ++ [⟨newId, cmd, dir, t, none, none⟩]

/-- `get_unembedded_commands`:
`SELECT ... FROM commands WHERE embedded_at IS NULL` (rowid order). -/
def get_unembedded_commands (s : Store) : Store :=
  s.filter (fun r => r.embedded_at.isNone)

/-- One `UPDATE commands SET embedded_at = datetime('now'), embedding = ?
WHERE id = ?` statement: every row whose `id` matches is updated, both
nullable columns set together. -/
def apply_update (t : Nat) (s : Store) (p : Nat × List ℝ) : Store :=
  s.map (fun r =>
    if r.id = p.1 then
      { r with embedded_at := some t, embedding := some p.2 }
    else r)

/-- `mark_embedded`: the loop of per-record `UPDATE`s over `zip(ids,
embeddings)` followed by one `commit` (the `if not ids: return` fast path
coincides with the empty fold). -/
def mark_embedded (t : Nat) (s : Store) (pairs : List (Nat × List ℝ)) : Store :=
  pairs.foldl (apply_update t) s

/-- Ordering used by `ORDER BY timestamp DESC`: newer (or equal) first. -/
def tsGe (a b : CommandRecord) : Prop :=
  b.timestamp ≤ a.timestamp

instance : DecidableRel tsGe := fun a b =>
  Nat.decLe b.timestamp a.timestamp

/-- `get_all_embedded_commands`:
`SELECT ... FROM commands WHERE embedding IS NOT NULL ORDER BY timestamp
DESC`, the embedding blob decoded back to a vector. -/
def get_all_embedded_commands (s : Store) : Store :=
  List.insertionSort tsGe (s.filter (fun r => r.embedding.isSome))

/-! ### `mark_embedded` with a fallible connection (for the atomicity claim)

The Python function runs every `UPDATE` on one connection and commits once
at the end; `conn.close()` in the `finally` block rolls back an
uncommitted transaction.  `fail` selects the row ids whose `UPDATE` raises. -/

/-- The uncommitted connection state threaded through the `UPDATE` loop:
`.error` when some executed update raised. -/
def mark_embedded_go (fail : Nat → Bool) (t : Nat) :
    Store → List (Nat × List ℝ) → Except Unit Store
  | u, [] => .ok u
  | u, p :: ps =>
    if fail p.1 then .error ()
    else mark_embedded_go fail t (apply_update t u p) ps

/-- The store visible after `mark_embedded` returns or raises, paired with
whether an exception propagated: on success the final state is committed,
on failure the close-without-commit rolls back to the original store. -/
def mark_embedded_visible (fail : Nat → Bool) (t : Nat) (s : Store)
    (pairs : List (Nat × List ℝ)) : Store × Bool :=
  match mark_embedded_go fail t s pairs with
  | .ok u => (u, false)
  | .error _ => (s, true)

/-! ## Embedding backend (`embeddings.py`) -/

/-- The opaque capability `provider.embed(texts)`: either the full list of
vectors or a raised backend error. -/
abbrev EmbedFn := List String → Except String (List (List ℝ))

/-- `LocalProvider` instance state: `__init__` sets `self._session = None`;
`_load` fills it with the ONNX session handle (modelled as a `Nat`). -/
structure LocalProvider where
  session : Option Nat
deriving DecidableEq

/-- `LocalProvider()`: a fresh instance, nothing loaded yet. -/
def LocalProvider.new : LocalProvider := ⟨none⟩

/-- State effect of one `LocalProvider.embed` call: `if self._session is
None: self._load()`.  Returns the instance afterwards and how many model
initializations this call performed. -/
def LocalProvider.embed_step (p : LocalProvider) : LocalProvider × Nat :=
  match p.session with
  | none => (⟨some 0⟩, 1)
  | some h => (⟨some h⟩, 0)

/-- `n` successive `embed` calls on the same provider instance, counting
the total number of model initializations. -/
def runEmbeds : LocalProvider → Nat → LocalProvider × Nat
  | p, 0 => (p, 0)
  | p, n + 1 =>
    let q := p.embed_step
    let r := runEmbeds q.1 n
    (r.1, q.2 + r.2)

/-- The `_PROVIDERS` registry keys. -/
def providerNames : List String := ["local", "openai", "anthropic", "ollama"]

/-- `get_provider(name)`: look the class up in `_PROVIDERS` and return
`provider_class()` — a freshly constructed instance — or raise `ValueError`
for an unknown name.  Only the local provider carries model state. -/
def get_provider (name : String) : Except String LocalProvider :=
  if name ∈ providerNames then .ok LocalProvider.new
  else .error "Unknown embedding provider"

/-- Loads performed by one `sync()`/`search()` invocation that obtains its
provider from `get_provider "local"` and then makes `k` embed calls on it. -/
def invocation_loads (k : Nat) : Nat :=
  match get_provider "local" with
  | .ok p => (runEmbeds p k).2
  | .error _ => 0

/-- Total model initializations over a process making the given sequence of
invocations (each entry: how many embed calls that invocation makes); each
invocation calls `get_provider` anew, as `sync` and `search` do. -/
def process_loads (invocations : List Nat) : Nat :=
  (invocations.map invocation_loads).sum

/-! ## Sync engine (`search.py` / `sync`) -/

/-- `sync()`: fetch the unembedded records; return 0 if there are none;
otherwise embed all their texts in one backend call (an exception there
propagates before any store write) and mark them embedded.  The result is
the post-state of the store together with the returned count or the
propagated error. -/
def sync (f : EmbedFn) (t : Nat) (s : Store) : Store × Except String Nat :=
  let unembedded := get_unembedded_commands s
  if unembedded.isEmpty then (s, .ok 0)
  else
    match f (unembedded.map (fun r => r.command)) with
    | .error e => (s, .error e)
    | .ok es =>
      let ids := unembedded.map (fun r => r.id)
      (mark_embedded t s (ids.zip es), .ok unembedded.length)

/-! ## Query engine (`search.py` / `search`)

numpy float32 arithmetic is modelled over `ℝ`; `np.argsort` (ascending,
numpy's insertion sort on small inputs, hence stable) is modelled by a
stable insertion sort of indices; the Python slice `[:max_results]` keeps
its negative-bound semantics. -/

/-- A `SearchResult` dataclass value. -/
structure SearchResult where
  command : String
  directory : String
  timestamp : Nat
  similarity_score : ℝ

/-- `np.dot` on vectors (element-wise product, summed). -/
def dot (v w : List ℝ) : ℝ :=
  (List.zipWith (fun a b => a * b) v w).sum

/-- `np.linalg.norm`: the Euclidean norm. -/
noncomputable def norm2 (v : List ℝ) : ℝ :=
  Real.sqrt (dot v v)

/-- One row of the vectorized cosine similarity: `np.dot(matrix,
query_vec) / denominators`, where the denominator `‖v‖·‖q‖` is replaced by
`1e-10` when it is zero. -/
noncomputable def cosSim (q v : List ℝ) : ℝ :=
  dot v q / (if norm2 v * norm2 q = 0 then (1 : ℝ) / 10 ^ 10 else norm2 v * norm2 q)

/-- The comparison `np.argsort` sorts indices by: ascending value, equal
values kept in input order (stability). -/
def idxLe (xs : List ℝ) (i j : Nat) : Prop :=
  xs.getD i 0 < xs.getD j 0 ∨ (xs.getD i 0 = xs.getD j 0 ∧ i ≤ j)

noncomputable instance (xs : List ℝ) : DecidableRel (idxLe xs) := fun _ _ =>
  instDecidableOr

instance idxLe_total (xs : List ℝ) : IsTotal Nat (idxLe xs) := by
  constructor
  intro i j
  rcases lt_trichotomy (xs.getD i 0) (xs.getD j 0) with h | h | h
  · exact Or.inl (Or.inl h)
  · rcases Nat.le_total i j with hij | hij
    · exact Or.inl (Or.inr ⟨h, hij⟩)
    · exact Or.inr (Or.inr ⟨h.symm, hij⟩)
  · exact Or.inr (Or.inl h)

instance idxLe_trans (xs : List ℝ) : IsTrans Nat (idxLe xs) := by
  constructor
  intro i j l hij hjl
  rcases hij with h1 | ⟨h1, h1'⟩
  · rcases hjl with h2 | ⟨h2, _⟩
    · exact Or.inl (h1.trans h2)
    · exact Or.inl (h2 ▸ h1)
  · rcases hjl with h2 | ⟨h2, h2'⟩
    · exact Or.inl (h1 ▸ h2)
    · exact Or.inr ⟨h1.trans h2, h1'.trans h2'⟩

/-- `np.argsort(xs)`: the indices `0, …, xs.length - 1` stably sorted by
ascending value. -/
noncomputable def argsort (xs : List ℝ) : List Nat :=
  List.insertionSort (idxLe xs) (List.range xs.length)

/-- Python's `l[:k]`: for `k ≥ 0` the first `k` elements, for `k < 0` all
but the last `-k` elements (`Int.toNat` clamps a negative stop to 0). -/
def pySlice {α : Type} (k : Int) (l : List α) : List α :=
  if 0 ≤ k then l.take k.toNat
  else l.take ((l.length : Int) + k).toNat

/-- `np.argsort(similarities)[::-1][:max_results]`. -/
noncomputable def top_indices (sims : List ℝ) (max_results : Int) : List Nat :=
  pySlice max_results (argsort sims).reverse

/-- Python's `round(x, 4)` modelled over `ℝ`: the nearest multiple of
`10⁻⁴` (Mathlib's `round` breaks exact ties upward where CPython breaks
them to even; no claim here depends on exact-tie behaviour). -/
noncomputable def round4 (x : ℝ) : ℝ :=
  ((round (x * 10 ^ 4) : ℤ) : ℝ) / 10 ^ 4

/-- Build the `SearchResult` for stored row `i`:
`commands[i]["directory"] or ""` yields `""` exactly when the stored
directory is NULL or empty, which on `Option String` is `Option.getD ""`
up to the empty string mapping to itself. -/
noncomputable def mk_result (commands : Store) (sims : List ℝ) (i : Nat) :
    SearchResult :=
  { command := (commands.getD i default).command
    directory := ((commands.getD i default).directory).getD ""
    timestamp := (commands.getD i default).timestamp
    similarity_score := round4 (sims.getD i 0) }

/-- The similarity-ranking tail of `search`: score every stored vector
against the query vector, select the top slice of indices, build the
result objects. -/
noncomputable def rank_results (qv : List ℝ) (commands : Store)
    (max_results : Int) : List SearchResult :=
  let sims := commands.map (fun r => cosSim qv (r.embedding.getD []))
  (top_indices sims max_results).map (mk_result commands sims)

/-- `search(query, max_results)`: embed the query (`provider.embed([query])[0]`
raises if the backend returns no vector), load the embedded rows, return
`[]` on an empty store, otherwise rank every stored vector by cosine
similarity against the query and return the top slice. -/
noncomputable def search (f : EmbedFn) (query : String) (max_results : Int)
    (s : Store) : Except String (List SearchResult) :=
  match f [query] with
  | .error e => .error e
  | .ok [] => .error "list index out of range"
  | .ok (qv :: _) =>
    let commands := get_all_embedded_commands s
    if commands.isEmpty then .ok []
    else .ok (rank_results qv commands max_results)

/-! ## Live query coordinator (`tui.py`)

The reactive handlers as an event-step state machine: `input q` is
`on_search_input_changed` (cancel the pending debounce task, start a new
one for `q`); `fire` is an uncancelled `_debounced_search` timer expiring
(dispatch a `_run_search` worker); `complete i` is worker `i` finishing
(its `call_from_thread(_update_results, results)` publishes
unconditionally — the code has no generation check).  The scheduler's
freedom in interleaving is the choice of the event list. -/

/-- Published results are a function of the dispatched query, so states
track queries; `published = some q` means query `q`'s results are the ones
currently displayed. -/
structure CoordState where
  debounce : Option String
  dispatched : List String
  published : Option String
deriving DecidableEq

/-- Session start: no pending debounce, no workers, nothing published. -/
def coordInit : CoordState := ⟨none, [], none⟩

inductive CoordEvent where
  | input (q : String)
  | fire
  | complete (i : Nat)

/-- One coordinator step. -/
def coordStep (s : CoordState) : CoordEvent → CoordState
  | .input q => { s with debounce := some q }
  | .fire =>
    match s.debounce with
    | some q =>
      { debounce := none, dispatched := s.dispatched ++ [q],
        published := s.published }
    | none => s
  | .complete i =>
    match s.dispatched.get? i with
    | some q =>
      { debounce := s.debounce, dispatched := s.dispatched.eraseIdx i,
        published := some q }
    | none => s

/-- Run the coordinator over an event trace. -/
def coordRun (s : CoordState) (es : List CoordEvent) : CoordState :=
  es.foldl coordStep s

/-! ## Derived views and reachability -/

/-- Row-wise view of the `mark_embedded` update loop: the net effect of all
matching `UPDATE`s on one record. -/
def updRec (t : Nat) (pairs : List (Nat × List ℝ)) (r : CommandRecord) :
    CommandRecord :=
  pairs.foldl
    (fun r p =>
      if r.id = p.1 then
        { r with embedded_at := some t, embedding := some p.2 }
      else r)
    r

/-- Store states reachable through the store's own operations: table
creation/migration, `insert_command`, `mark_embedded`. -/
inductive Reachable : Store → Prop where
  | init : Reachable init_db
  | insert (s : Store) (newId : Nat) (cmd : String) (dir : Option String)
      (t : Nat) : Reachable s → Reachable (insert_command s newId cmd dir t)
  | mark (s : Store) (t : Nat) (pairs : List (Nat × List ℝ)) :
      Reachable s → Reachable (mark_embedded t s pairs)

/-! ## Concrete fixtures used by witnesses and counterexamples -/

/-- A store holding one captured, not yet embedded command. -/
def exampleUnembedded : Store := [⟨0, "c", none, 1, none, none⟩]

/-- The same store after a successful sync at time 7. -/
def exampleSynced : Store :=
  mark_embedded 7 (insert_command init_db 0 "c" none 1) [(0, [1])]

/-- A backend whose one call always raises. -/
def failF : EmbedFn := fun _ => .error "boom"

/-- A deterministic stub backend: every text embeds to the vector `[1]`. -/
def constF : EmbedFn := fun ts => .ok (ts.map (fun _ => [(1 : ℝ)]))

/-- Two embedded records with identical embeddings (hence tied cosine
similarity); listing order by `timestamp DESC` is `c0` (ts 5) then `c1`
(ts 3). -/
def exampleTied : Store :=
  [⟨0, "c0", none, 5, some 6, some [1]⟩, ⟨1, "c1", none, 3, some 6, some [1]⟩]

/-- Two embedded records with distinct similarities against query `[1]`:
`c0 ↦ 1`, `c1 ↦ 0` (the zero vector hits the `1e-10` denominator floor). -/
def exampleRanked : Store :=
  [⟨0, "c0", none, 5, some 6, some [1]⟩, ⟨1, "c1", none, 3, some 6, some [0]⟩]

/-! ## C2 — live query coordinator ordering -/

/-- C2, counterexample: issue query "A", let its debounce fire and its
worker dispatch, then issue query "B" and let its worker dispatch; worker
1 (query "B") completes first, then worker 0 (query "A") completes late.
The coordinator publishes "A"'s results — the display regresses to the
superseded query, because `_update_results` has no generation check. -/
theorem coordinator_regresses_to_stale_query :
    (coordRun coordInit
      [.input "A", .fire, .input "B", .fire, .complete 1, .complete 0]) =
      ⟨none, [], some "A"⟩ ∧ some "A" ≠ some "B" := by
  exact ⟨rfl, by decide⟩

/-- C2 (amended): the debounce cancellation guarantees that a query
superseded before its timer fires is never dispatched (two inputs then one
timer expiry dispatch only the second query); but once a worker is
dispatched, its completion publishes unconditionally — so the last worker
to complete wins, whatever query it belongs to. -/
theorem coordinator_debounce_and_last_completion (s : CoordState)
    (q1 q2 q : String) (i : Nat) (h : s.dispatched.get? i = some q) :
    coordRun s [.input q1, .input q2, .fire] =
      ⟨none, s.dispatched ++ [q2], s.published⟩ ∧
    (coordStep s (.complete i)).published = some q := by
  refine ⟨rfl, ?_⟩
  rw [List.get?_eq_getElem?] at h
  simp [coordStep, h]

/-- Witness for the amended C2 theorem at a concrete coordinator state. -/
theorem coordinator_debounce_and_last_completion_witness :
    coordRun ⟨none, ["X"], none⟩ [.input "a", .input "b", .fire] =
      ⟨none, ["X", "b"], none⟩ ∧
    (coordStep ⟨none, ["X"], none⟩ (.complete 0)).published = some "X" :=
  coordinator_debounce_and_last_completion ⟨none, ["X"], none⟩ "a" "b" "X" 0 rfl

/-! ## C8 — local model initialization count -/

/-- A provider instance that has already loaded never loads again. -/
theorem runEmbeds_loaded (h : Nat) : ∀ n, runEmbeds ⟨some h⟩ n = (⟨some h⟩, 0) := by
  intro n
  induction n with
  | zero => rfl
  | succ n ih => simpa [runEmbeds, LocalProvider.embed_step] using ih

/-- C8, counterexample: two successive invocations (e.g. a `sync()` then a
`search()`), each fetching its provider from `get_provider` and making one
embed call, perform two model initializations — `get_provider` returns a
fresh `LocalProvider()` every time, so the lazy load is per instance, not
per process. -/
theorem model_loaded_once_per_invocation_not_process :
    process_loads [1, 1] = 2 ∧ ¬ process_loads [1, 1] ≤ 1 := by
  decide

/-- C8 (amended): within a single provider instance the model is
initialized lazily at most once: over any number `n` of successive embed
calls on one fresh instance, exactly `min n 1` loads happen, and after the
first call the cached session handle is reused. -/
theorem local_provider_loads_once_per_instance (n : Nat) :
    (runEmbeds LocalProvider.new n).2 = min n 1 ∧
    (runEmbeds LocalProvider.new (n + 1)).1 = ⟨some 0⟩ := by
  constructor
  · cases n with
    | zero => rfl
    | succ m =>
      have h : (runEmbeds LocalProvider.new (m + 1)).2 = 1 := by
        simp [runEmbeds, LocalProvider.new, LocalProvider.embed_step,
          runEmbeds_loaded 0 m]
      rw [h]
      omega
  · simp [runEmbeds, LocalProvider.new, LocalProvider.embed_step,
      runEmbeds_loaded 0 n]

/-! ## C10 — batch atomicity of `mark_embedded` -/

/-- If some update in the batch raises, the sequential `UPDATE` loop ends
in the raised state no matter what uncommitted state it starts from. -/
theorem mark_embedded_go_error (fail : Nat → Bool) (t : Nat)
    (pairs : List (Nat × List ℝ)) (hp : ∃ p ∈ pairs, fail p.1 = true) :
    ∀ u : Store, mark_embedded_go fail t u pairs = .error () := by
  induction pairs with
  | nil => exact absurd hp (by simp)
  | cons p ps ih =>
    intro u
    by_cases hf : fail p.1 = true
    · simp [mark_embedded_go, hf]
    · obtain ⟨q, hq, hqf⟩ := hp
      rcases List.mem_cons.mp hq with h | h
      · exact absurd (h ▸ hqf) hf
      · simp only [mark_embedded_go, hf, if_false, Bool.false_eq_true]
        exact ih ⟨q, h, hqf⟩ _

/-- If no update in the batch raises, the loop computes exactly the
all-updates-applied state. -/
theorem mark_embedded_go_ok (fail : Nat → Bool) (t : Nat) :
    ∀ (pairs : List (Nat × List ℝ)), (∀ p ∈ pairs, fail p.1 = false) →
      ∀ u : Store, mark_embedded_go fail t u pairs = .ok (mark_embedded t u pairs) := by
  intro pairs
  induction pairs with
  | nil => intro _ u; rfl
  | cons p ps ih =>
    intro hp u
    have hf : fail p.1 = false := hp p (List.mem_cons_self p ps)
    simp only [mark_embedded_go, hf, Bool.false_eq_true, if_false]
    exact ih (fun q hq => hp q (List.mem_cons_of_mem p hq)) _

/-- C10: the `mark_embedded` batch is all-or-nothing.  All updates run on
one connection and are committed once at the end, so if any per-record
update raises before the commit, the close-without-commit rollback leaves
the store unchanged and the error propagates; if none raises, the whole
batch is applied. -/
theorem mark_embedded_batch_atomic (fail : Nat → Bool) (t : Nat) (s : Store)
    (pairs : List (Nat × List ℝ)) :
    ((∃ p ∈ pairs, fail p.1 = true) →
      mark_embedded_visible fail t s pairs = (s, true)) ∧
    ((∀ p ∈ pairs, fail p.1 = false) →
      mark_embedded_visible fail t s pairs = (mark_embedded t s pairs, false)) := by
  constructor
  · intro hp
    unfold mark_embedded_visible
    rw [mark_embedded_go_error fail t pairs hp s]
  · intro hp
    unfold mark_embedded_visible
    rw [mark_embedded_go_ok fail t pairs hp s]

/-- Witness for the C10 theorem: a batch of two updates whose second
update raises rolls back entirely; the same batch with no failure applies
both updates. -/
theorem mark_embedded_batch_atomic_witness :
    mark_embedded_visible (fun i => decide (i = 1)) 7 exampleTied
        [(0, [2]), (1, [2])] = (exampleTied, true) ∧
    mark_embedded_visible (fun _ => false) 7 exampleTied [(0, [2]), (1, [2])] =
      (mark_embedded 7 exampleTied [(0, [2]), (1, [2])], false) :=
  ⟨(mark_embedded_batch_atomic (fun i => decide (i = 1)) 7 exampleTied
      [(0, [2]), (1, [2])]).1 ⟨(1, [2]), by simp, by simp⟩,
   (mark_embedded_batch_atomic (fun _ => false) 7 exampleTied
      [(0, [2]), (1, [2])]).2 (fun _ _ => rfl)⟩

/-! ## C5 — `embedding` non-null iff `embedded_at` non-null -/

/-- A single `UPDATE` preserves the paired-nullability invariant: it sets
both columns together or touches neither. -/
theorem apply_update_inv (t : Nat) (s : Store) (p : Nat × List ℝ)
    (h : ∀ r ∈ s, r.embedding.isSome ↔ r.embedded_at.isSome) :
    ∀ r ∈ apply_update t s p, r.embedding.isSome ↔ r.embedded_at.isSome := by
  intro r hr
  simp only [apply_update, List.mem_map] at hr
  obtain ⟨r0, hr0, hre⟩ := hr
  by_cases hid : r0.id = p.1
  · simp [← hre, hid]
  · rw [← hre]
    simpa [hid] using h r0 hr0

/-- The whole `mark_embedded` loop preserves the invariant. -/
theorem mark_embedded_inv (t : Nat) (pairs : List (Nat × List ℝ)) :
    ∀ s : Store, (∀ r ∈ s, r.embedding.isSome ↔ r.embedded_at.isSome) →
      ∀ r ∈ mark_embedded t s pairs, r.embedding.isSome ↔ r.embedded_at.isSome := by
  induction pairs with
  | nil => intro s h; exact h
  | cons p ps ih =>
    intro s h
    exact ih (apply_update t s p) (apply_update_inv t s p h)

/-- C5: in every store state reachable by the store's operations (table
creation/migration, insert, the mark-embedded update loop), `embedding` is
non-null iff `embedded_at` is non-null: inserts create both null and each
update sets both in the same statement. -/
theorem reachable_embedding_iff_embedded_at (s : Store) (h : Reachable s) :
    ∀ r ∈ s, r.embedding.isSome ↔ r.embedded_at.isSome := by
  induction h with
  | init => intro r hr; exact absurd hr (List.not_mem_nil r)
  | insert s0 newId cmd dir t _ ih =>
    intro r hr
    rcases List.mem_append.mp hr with h0 | h0
    · exact ih r h0
    · rcases List.mem_singleton.mp h0 with rfl
      simp
  | mark s0 t pairs _ ih =>
    exact mark_embedded_inv t pairs s0 ih

/-- Witness for the C5 theorem: the synced one-record store is reachable
and its single record has both fields set. -/
theorem reachable_embedding_iff_embedded_at_witness :
    (⟨0, "c", none, 1, some 7, some [1]⟩ : CommandRecord) ∈ exampleSynced ∧
    ((⟨0, "c", none, 1, some 7, some [1]⟩ : CommandRecord).embedding.isSome ↔
      (⟨0, "c", none, 1, some 7, some [1]⟩ : CommandRecord).embedded_at.isSome) :=
  ⟨List.mem_singleton.mpr rfl,
   reachable_embedding_iff_embedded_at exampleSynced
     (Reachable.mark _ 7 [(0, [1])]
       (Reachable.insert init_db 0 "c" none 1 Reachable.init))
     _ (List.mem_singleton.mpr rfl)⟩

/-! ## C4 — backend failure inside `sync` -/

/-- C4: when the backend call inside `sync()` raises, the exception
propagates before `mark_embedded` runs, so the caller sees the error, the
store is unchanged, and a subsequent `sync()` sees the same unembedded
set. -/
theorem sync_error_propagates (f : EmbedFn) (t : Nat) (s : Store) (e : String)
    (hne : (get_unembedded_commands s).isEmpty = false)
    (hf : f ((get_unembedded_commands s).map fun r => r.command) = .error e) :
    sync f t s = (s, .error e) ∧
    get_unembedded_commands (sync f t s).1 = get_unembedded_commands s := by
  have h : sync f t s = (s, .error e) := by
    simp [sync, hne, hf]
  exact ⟨h, by rw [h]⟩

/-- Witness for the C4 theorem: one unembedded record, a backend that
raises `"boom"`. -/
theorem sync_error_propagates_witness :
    sync failF 7 exampleUnembedded = (exampleUnembedded, .error "boom") ∧
    get_unembedded_commands (sync failF 7 exampleUnembedded).1 =
      get_unembedded_commands exampleUnembedded :=
  sync_error_propagates failF 7 exampleUnembedded "boom" rfl rfl

/-! ## C3 — `sync` idempotence and its return count -/

/-- The `UPDATE` loop row-wise: each record is transformed by the net
effect of its matching updates. -/
theorem mark_embedded_eq_map (t : Nat) :
    ∀ (pairs : List (Nat × List ℝ)) (s : Store),
      mark_embedded t s pairs = s.map (updRec t pairs) := by
  intro pairs
  induction pairs with
  | nil =>
    intro s
    have h0 : updRec t ([] : List (Nat × List ℝ)) = fun r => r := rfl
    simp [mark_embedded, h0]
  | cons p ps ih =>
    intro s
    simp only [mark_embedded, List.foldl_cons] at *
    rw [ih (apply_update t s p)]
    simp only [apply_update, List.map_map]
    rfl

/-- A record whose id matches no update in the batch is untouched. -/
theorem updRec_not_mem (t : Nat) :
    ∀ (pairs : List (Nat × List ℝ)) (r : CommandRecord),
      r.id ∉ pairs.map Prod.fst → updRec t pairs r = r := by
  intro pairs
  induction pairs with
  | nil => intro r _; rfl
  | cons p ps ih =>
    intro r hm
    have h1 : ¬r.id = p.1 := fun h => hm (by simp [h])
    have h2 : r.id ∉ ps.map Prod.fst := fun h => hm (by simp [h])
    simp only [updRec, List.foldl_cons, h1, if_false]
    exact ih r h2

/-- A record whose id matches some update in the batch ends with
`embedded_at = some t`. -/
theorem updRec_mem (t : Nat) :
    ∀ (pairs : List (Nat × List ℝ)) (r : CommandRecord),
      r.id ∈ pairs.map Prod.fst → (updRec t pairs r).embedded_at = some t := by
  intro pairs
  induction pairs with
  | nil => intro r hm; exact absurd hm (by simp)
  | cons p ps ih =>
    intro r hm
    rw [List.map_cons] at hm
    simp only [updRec, List.foldl_cons]
    by_cases h1 : r.id = p.1
    · rw [if_pos h1]
      change (updRec t ps { r with embedded_at := some t, embedding := some p.2 }).embedded_at = some t
      by_cases h2 : r.id ∈ ps.map Prod.fst
      · exact ih _ h2
      · have h2' : ({ r with embedded_at := some t, embedding := some p.2 } : CommandRecord).id ∉ ps.map Prod.fst := h2
        rw [updRec_not_mem t ps _ h2']
    · rw [if_neg h1]
      change (updRec t ps r).embedded_at = some t
      rcases List.mem_cons.mp hm with h | h
      · exact absurd h h1
      · exact ih r h

/-- After marking every unembedded record (one vector per record), no
record is unembedded any more. -/
theorem unembedded_after_mark (t : Nat) (s : Store) (es : List (List ℝ))
    (hlen : ((get_unembedded_commands s).map fun r => r.id).length ≤ es.length) :
    get_unembedded_commands
      (mark_embedded t s
        ((((get_unembedded_commands s).map fun r => r.id)).zip es)) = [] := by
  rw [mark_embedded_eq_map]
  have hkeys :
      ((((get_unembedded_commands s).map fun r => r.id)).zip es).map Prod.fst =
        (get_unembedded_commands s).map fun r => r.id :=
    List.map_fst_zip _ _ hlen
  rw [get_unembedded_commands, List.filter_eq_nil_iff]
  intro r' hr'
  obtain ⟨r, hr, rfl⟩ := List.mem_map.mp hr'
  cases hemb : r.embedded_at with
  | none =>
    have hu : r ∈ get_unembedded_commands s := by
      simp [get_unembedded_commands, List.mem_filter, hr, hemb]
    have hmem : r.id ∈
        ((((get_unembedded_commands s).map fun r => r.id)).zip es).map Prod.fst := by
      rw [hkeys]
      exact List.mem_map.mpr ⟨r, hu, rfl⟩
    simp [updRec_mem t _ r hmem]
  | some a =>
    by_cases hmem : r.id ∈
        ((((get_unembedded_commands s).map fun r => r.id)).zip es).map Prod.fst
    · simp [updRec_mem t _ r hmem]
    · simp [updRec_not_mem t _ r hmem, hemb]

/-- C3: `sync()` returns exactly the number of records unembedded when it
started, and after a successful `sync()` an immediate second `sync()` (no
inserts in between) finds nothing to embed, changes nothing, and returns
0 — provided the backend honours its contract of one vector per text. -/
theorem sync_idempotent (f : EmbedFn)
    (hf : ∀ ts vs, f ts = .ok vs → vs.length = ts.length)
    (t t' : Nat) (s s' : Store) (n : Nat)
    (h : sync f t s = (s', .ok n)) :
    n = (get_unembedded_commands s).length ∧ sync f t' s' = (s', .ok 0) := by
  by_cases hu : (get_unembedded_commands s).isEmpty
  · have hs : sync f t s = (s, .ok 0) := by simp [sync, hu]
    rw [h] at hs
    obtain ⟨h1, h2⟩ := Prod.mk.injEq .. ▸ hs
    obtain rfl := Except.ok.inj h2
    refine ⟨by simp [List.isEmpty_iff.mp hu], ?_⟩
    rw [h1]
    simp [sync, hu, h1]
  · rw [Bool.not_eq_true] at hu
    cases hfe : f ((get_unembedded_commands s).map fun r => r.command) with
    | error e =>
      have hs : sync f t s = (s, .error e) := by simp [sync, hu, hfe]
      rw [h] at hs
      exact absurd (congrArg Prod.snd hs) (by simp)
    | ok es =>
      have hs : sync f t s =
          (mark_embedded t s
            ((((get_unembedded_commands s).map fun r => r.id)).zip es),
           .ok (get_unembedded_commands s).length) := by
        simp [sync, hu, hfe]
      rw [h] at hs
      obtain ⟨h1, h2⟩ := Prod.mk.injEq .. ▸ hs
      obtain rfl := Except.ok.inj h2
      refine ⟨rfl, ?_⟩
      have hlen : ((get_unembedded_commands s).map fun r => r.id).length ≤
          es.length := by
        have := hf _ _ hfe
        simp_all
      have hempty : get_unembedded_commands s' = [] := by
        rw [h1]
        exact unembedded_after_mark t s es hlen
      simp [sync, hempty]

/-- Witness for the C3 theorem: syncing the one-record store embeds one
record and a second sync returns 0 on the unchanged store. -/
theorem sync_idempotent_witness :
    sync constF 7 exampleUnembedded = (exampleSynced, .ok 1) ∧
    (1 = (get_unembedded_commands exampleUnembedded).length ∧
      sync constF 8 exampleSynced = (exampleSynced, .ok 0)) :=
  ⟨rfl,
   sync_idempotent constF
     (fun ts vs h => by
       simp only [constF] at h
       obtain rfl := Except.ok.inj h
       simp)
     7 8 exampleUnembedded exampleSynced 1 rfl⟩

/-! ## Cosine similarity facts -/

/-- `dot` as a finite sum over positions. -/
theorem dot_eq_sum (v : List ℝ) :
    ∀ w : List ℝ, dot v w =
      ∑ i ∈ Finset.range (min v.length w.length), v.getD i 0 * w.getD i 0 := by
  induction v with
  | nil => intro w; simp [dot]
  | cons a v ih =>
    intro w
    cases w with
    | nil => simp [dot]
    | cons b w =>
      simp only [dot, List.zipWith_cons_cons, List.sum_cons, List.length_cons]
      rw [show min (v.length + 1) (w.length + 1) = min v.length w.length + 1 by
        omega]
      rw [Finset.sum_range_succ']
      simp only [List.getD_cons_succ, List.getD_cons_zero]
      rw [show (List.zipWith (fun a b => a * b) v w).sum = dot v w from rfl, ih w]
      ring

/-- `dot v v` is the sum of squared entries. -/
theorem dot_self_eq_sum (v : List ℝ) :
    dot v v = ∑ i ∈ Finset.range v.length, v.getD i 0 ^ 2 := by
  rw [dot_eq_sum, Nat.min_self]
  exact Finset.sum_congr rfl fun i _ => (sq (v.getD i 0)).symm

/-- `dot v v` is nonnegative. -/
theorem dot_self_nonneg (v : List ℝ) : 0 ≤ dot v v := by
  rw [dot_self_eq_sum]
  exact Finset.sum_nonneg fun i _ => sq_nonneg _

/-- `norm2` is nonnegative. -/
theorem norm2_nonneg (v : List ℝ) : 0 ≤ norm2 v :=
  Real.sqrt_nonneg _

/-- A vector of vanishing norm has all entries zero. -/
theorem getD_eq_zero_of_norm2_eq_zero (v : List ℝ) (h : norm2 v = 0) :
    ∀ i < v.length, v.getD i 0 = 0 := by
  intro i hi
  have hd : dot v v = 0 := (Real.sqrt_eq_zero (dot_self_nonneg v)).mp h
  rw [dot_self_eq_sum] at hd
  have := (Finset.sum_eq_zero_iff_of_nonneg fun j _ => sq_nonneg (v.getD j 0)).mp
    hd i (Finset.mem_range.mpr hi)
  exact pow_eq_zero_iff (two_ne_zero) |>.mp this

/-- The truncated square-sum square root is at most the full norm. -/
theorem sqrt_sum_sq_le_norm2 (v : List ℝ) (m : Nat) (hm : m ≤ v.length) :
    Real.sqrt (∑ i ∈ Finset.range m, v.getD i 0 ^ 2) ≤ norm2 v := by
  rw [norm2, dot_self_eq_sum]
  exact Real.sqrt_le_sqrt (Finset.sum_le_sum_of_subset_of_nonneg
    (Finset.range_subset.mpr hm) fun i _ _ => sq_nonneg _)

/-- Cauchy–Schwarz, upper side, for the list dot product. -/
theorem dot_le_norm2_mul_norm2 (v w : List ℝ) :
    dot v w ≤ norm2 v * norm2 w := by
  rw [dot_eq_sum]
  refine le_trans (Real.sum_mul_le_sqrt_mul_sqrt _ _ _) ?_
  exact mul_le_mul (sqrt_sum_sq_le_norm2 v _ (Nat.min_le_left _ _))
    (sqrt_sum_sq_le_norm2 w _ (Nat.min_le_right _ _))
    (Real.sqrt_nonneg _) (norm2_nonneg v)

/-- Cauchy–Schwarz, lower side, for the list dot product. -/
theorem neg_norm2_mul_norm2_le_dot (v w : List ℝ) :
    -(norm2 v * norm2 w) ≤ dot v w := by
  rw [neg_le, dot_eq_sum, ← Finset.sum_neg_distrib]
  refine le_trans (le_of_eq (Finset.sum_congr rfl fun i _ => (neg_mul _ _).symm))
    (le_trans (Real.sum_mul_le_sqrt_mul_sqrt _
      (fun i => -(v.getD i 0)) (fun i => w.getD i 0)) ?_)
  have h1 : (∑ i ∈ Finset.range (min v.length w.length), (-(v.getD i 0)) ^ 2) =
      ∑ i ∈ Finset.range (min v.length w.length), v.getD i 0 ^ 2 :=
    Finset.sum_congr rfl fun i _ => neg_sq _
  rw [h1]
  exact mul_le_mul (sqrt_sum_sq_le_norm2 v _ (Nat.min_le_left _ _))
    (sqrt_sum_sq_le_norm2 w _ (Nat.min_le_right _ _))
    (Real.sqrt_nonneg _) (norm2_nonneg v)

/-- If the denominator product vanishes, so does the dot product. -/
theorem dot_eq_zero_of_norm2_mul_eq_zero (v w : List ℝ)
    (h : norm2 v * norm2 w = 0) : dot v w = 0 := by
  rw [dot_eq_sum]
  rcases mul_eq_zero.mp h with h0 | h0
  · exact Finset.sum_eq_zero fun i hi => by
      rw [getD_eq_zero_of_norm2_eq_zero v h0 i
        (lt_of_lt_of_le (Finset.mem_range.mp hi) (Nat.min_le_left _ _)), zero_mul]
  · exact Finset.sum_eq_zero fun i hi => by
      rw [getD_eq_zero_of_norm2_eq_zero w h0 i
        (lt_of_lt_of_le (Finset.mem_range.mp hi) (Nat.min_le_right _ _)), mul_zero]

/-- Every cosine similarity the query engine computes lies in `[-1, 1]`:
the zero-denominator branch yields exactly 0, the regular branch is
bounded by Cauchy–Schwarz. -/
theorem cosSim_bounds (q v : List ℝ) : -1 ≤ cosSim q v ∧ cosSim q v ≤ 1 := by
  unfold cosSim
  by_cases h : norm2 v * norm2 q = 0
  · rw [if_pos h, dot_eq_zero_of_norm2_mul_eq_zero v q h, zero_div]
    norm_num
  · rw [if_neg h]
    have hpos : 0 < norm2 v * norm2 q :=
      lt_of_le_of_ne (mul_nonneg (norm2_nonneg v) (norm2_nonneg q)) (Ne.symm h)
    have habs : |dot v q / (norm2 v * norm2 q)| ≤ 1 := by
      rw [abs_div, abs_of_pos hpos]
      exact (div_le_one hpos).mpr (abs_le.mpr
        ⟨neg_norm2_mul_norm2_le_dot v q, dot_le_norm2_mul_norm2 v q⟩)
    exact abs_le.mp habs

/-! ## Rounding facts -/

/-- `round4` is monotone. -/
theorem round4_mono (x y : ℝ) (h : x ≤ y) : round4 x ≤ round4 y := by
  unfold round4
  have hr : round (x * 10 ^ 4) ≤ round (y * 10 ^ 4) := by
    rw [round_eq, round_eq]
    exact Int.floor_le_floor (by linarith)
  have hc : ((round (x * 10 ^ 4) : ℤ) : ℝ) ≤ ((round (y * 10 ^ 4) : ℤ) : ℝ) :=
    Int.cast_le.mpr hr
  exact (div_le_div_iff_of_pos_right (by norm_num)).mpr hc

/-- Rounding to 4 decimals keeps values of `[-1, 1]` inside `[-1, 1]`. -/
theorem round4_bounds (x : ℝ) (h1 : -1 ≤ x) (h2 : x ≤ 1) :
    -1 ≤ round4 x ∧ round4 x ≤ 1 := by
  have hub : round (x * 10 ^ 4) ≤ (10 ^ 4 : ℤ) := by
    have h : round (x * 10 ^ 4) ≤ round (((10 ^ 4 : ℤ) : ℝ)) := by
      rw [round_eq, round_eq]
      apply Int.floor_le_floor
      push_cast
      linarith
    rwa [round_intCast] at h
  have hlb : (-(10 ^ 4) : ℤ) ≤ round (x * 10 ^ 4) := by
    have h : round (((-(10 ^ 4) : ℤ) : ℝ)) ≤ round (x * 10 ^ 4) := by
      rw [round_eq, round_eq]
      apply Int.floor_le_floor
      push_cast
      linarith
    rwa [round_intCast] at h
  unfold round4
  constructor
  · rw [le_div_iff₀ (by norm_num : (0 : ℝ) < 10 ^ 4)]
    calc (-1 : ℝ) * 10 ^ 4 = ((-(10 ^ 4) : ℤ) : ℝ) := by norm_num
      _ ≤ _ := Int.cast_le.mpr hlb
  · rw [div_le_one (by norm_num : (0 : ℝ) < 10 ^ 4)]
    calc ((round (x * 10 ^ 4) : ℤ) : ℝ) ≤ ((10 ^ 4 : ℤ) : ℝ) := Int.cast_le.mpr hub
      _ = 10 ^ 4 := by norm_num

/-- `round4` fixes 1. -/
theorem round4_one : round4 (1 : ℝ) = 1 := by
  unfold round4
  rw [one_mul, show ((10 : ℝ) ^ 4) = ((10 ^ 4 : ℤ) : ℝ) by norm_num, round_intCast]
  norm_num

/-! ## C6 — empty store -/

/-- C6: when no stored record is embedded, `search` short-circuits on the
empty listing and returns the empty list without raising (given the query
embedding call itself succeeds, which is all that runs before the check). -/
theorem search_empty_store (f : EmbedFn) (q : String) (k : Int) (s : Store)
    (qv : List ℝ) (rest : List (List ℝ)) (hemb : f [q] = .ok (qv :: rest))
    (hempty : ∀ r ∈ s, r.embedding = none) :
    search f q k s = .ok [] := by
  have hlist : get_all_embedded_commands s = [] := by
    rw [get_all_embedded_commands]
    have hfil : s.filter (fun r => r.embedding.isSome) = [] := by
      rw [List.filter_eq_nil_iff]
      intro r hr
      simp [hempty r hr]
    rw [hfil]
    rfl
  simp [search, hemb, hlist]

/-- Witness for the C6 theorem: a store whose only record is unembedded. -/
theorem search_empty_store_witness :
    search constF "q" 10 exampleUnembedded = .ok [] :=
  search_empty_store constF "q" 10 exampleUnembedded [1] [] rfl
    (fun r hr => by
      rcases List.mem_singleton.mp hr with rfl
      rfl)

/-! ## Ranking structure -/

/-- The reversed argsort is pairwise ordered by strictly-greater value or
equal value with strictly later store position (weakly: `j ≤ i`). -/
theorem argsort_reverse_pairwise (sims : List ℝ) :
    (argsort sims).reverse.Pairwise (fun i j => idxLe sims j i) := by
  rw [List.pairwise_reverse]
  exact List.sorted_insertionSort (idxLe sims) (List.range sims.length)

/-- `pySlice` only keeps a prefix. -/
theorem pySlice_sublist {α : Type} (k : Int) (l : List α) :
    (pySlice k l).Sublist l := by
  unfold pySlice
  split
  · exact List.take_sublist _ _
  · exact List.take_sublist _ _

/-- The selected top indices inherit the descending pairwise order. -/
theorem top_indices_pairwise (sims : List ℝ) (k : Int) :
    (top_indices sims k).Pairwise (fun i j => idxLe sims j i) :=
  (argsort_reverse_pairwise sims).sublist (pySlice_sublist k _)

/-- Every selected index addresses a valid position of the score list. -/
theorem top_indices_mem_range (sims : List ℝ) (k : Int) :
    ∀ i ∈ top_indices sims k, i < sims.length := by
  intro i hi
  have hi' : i ∈ (argsort sims).reverse :=
    (pySlice_sublist k _).subset hi
  rw [List.mem_reverse] at hi'
  have hp := List.perm_insertionSort (idxLe sims) (List.range sims.length)
  exact List.mem_range.mp (hp.mem_iff.mp hi')

/-- For a nonnegative bound the slice keeps at most `k.toNat` elements. -/
theorem pySlice_length_le {α : Type} (k : Int) (hk : 0 ≤ k) (l : List α) :
    (pySlice k l).length ≤ k.toNat := by
  unfold pySlice
  rw [if_pos hk, List.length_take]
  exact min_le_left _ _

/-- Selecting from an empty score list yields no indices. -/
theorem top_indices_nil (k : Int) : top_indices [] k = [] := by
  unfold top_indices
  rw [show argsort [] = [] from rfl]
  unfold pySlice
  split <;> simp

/-- Ranking an empty listing yields no results. -/
theorem rank_results_nil (qv : List ℝ) (k : Int) :
    rank_results qv [] k = [] := by
  simp [rank_results, top_indices_nil]

/-- Inversion of a successful `search` call: the query embedding succeeded
and the result list is the ranking of the embedded listing (which is empty
when the listing is). -/
theorem search_ok_inv (f : EmbedFn) (q : String) (k : Int) (s : Store)
    (rs : List SearchResult) (h : search f q k s = .ok rs) :
    ∃ qv rest, f [q] = .ok (qv :: rest) ∧
      rs = rank_results qv (get_all_embedded_commands s) k := by
  unfold search at h
  cases hfq : f [q] with
  | error e => rw [hfq] at h; exact absurd h (by simp)
  | ok vs =>
    cases vs with
    | nil => rw [hfq] at h; exact absurd h (by simp)
    | cons qv rest =>
      rw [hfq] at h
      refine ⟨qv, rest, rfl, ?_⟩
      have h' : (if (get_all_embedded_commands s).isEmpty then
          (Except.ok [] : Except String (List SearchResult))
          else .ok (rank_results qv (get_all_embedded_commands s) k)) = .ok rs := h
      by_cases hc : (get_all_embedded_commands s).isEmpty
      · rw [if_pos hc] at h'
        rw [List.isEmpty_iff.mp hc, rank_results_nil]
        exact (Except.ok.inj h').symm
      · rw [if_neg hc] at h'
        exact (Except.ok.inj h').symm

/-! ## C1 — result count, ordering, and tie order -/

/-- C1 (amended): for `k > 0`, `search` returns at most `k` results in
non-increasing `similarity_score` order; the selected indices are ordered
by strictly decreasing raw similarity, with raw ties ordered by *later*
store-listing position first (`j ≤ i` when position `i` precedes position
`j` in the output) — ascending stable argsort followed by `[::-1]` reverses
tied runs, so ties come out in reverse store order, not store order. -/
theorem search_sorted_desc (f : EmbedFn) (q : String) (k : Int) (s : Store)
    (rs : List SearchResult) (hk : 0 < k) (h : search f q k s = .ok rs) :
    rs.length ≤ k.toNat ∧
    rs.Pairwise (fun a b => b.similarity_score ≤ a.similarity_score) ∧
    ∃ qv rest sims, f [q] = .ok (qv :: rest) ∧
      sims = (get_all_embedded_commands s).map
        (fun r => cosSim qv (r.embedding.getD [])) ∧
      rs = (top_indices sims k).map
        (mk_result (get_all_embedded_commands s) sims) ∧
      (top_indices sims k).Pairwise
        (fun i j => sims.getD j 0 < sims.getD i 0 ∨
          (sims.getD j 0 = sims.getD i 0 ∧ j ≤ i)) := by
  obtain ⟨qv, rest, hfq, hrs⟩ := search_ok_inv f q k s rs h
  have hrs' : rs = (top_indices ((get_all_embedded_commands s).map
      (fun r => cosSim qv (r.embedding.getD []))) k).map
      (mk_result (get_all_embedded_commands s)
        ((get_all_embedded_commands s).map
          (fun r => cosSim qv (r.embedding.getD [])))) := hrs
  refine ⟨?_, ?_, qv, rest, _, hfq, rfl, hrs', ?_⟩
  · rw [hrs', List.length_map]
    exact le_trans (le_of_eq (congrArg List.length rfl))
      (pySlice_length_le k (le_of_lt hk) _)
  · rw [hrs', List.pairwise_map]
    refine (top_indices_pairwise _ k).imp ?_
    intro i j hij
    simp only [mk_result]
    apply round4_mono
    rcases hij with h1 | ⟨h1, _⟩
    · exact le_of_lt h1
    · exact le_of_eq h1
  · exact (top_indices_pairwise _ k).imp fun hij => hij

/-! ## Concrete evaluations of the query pipeline -/

/-- Cosine similarity of the unit vector `[1]` with itself. -/
theorem cosSim_one : cosSim [(1 : ℝ)] [1] = 1 := by
  have hd : dot [(1 : ℝ)] [1] = 1 := by simp [dot]
  have hn : norm2 [(1 : ℝ)] = 1 := by rw [norm2, hd, Real.sqrt_one]
  unfold cosSim
  rw [hd, hn]
  norm_num

/-- Cosine similarity of a zero stored vector: the denominator floor kicks
in and the score is 0. -/
theorem cosSim_zero_vec : cosSim [(1 : ℝ)] [0] = 0 := by
  have hd : dot [(0 : ℝ)] [1] = 0 := by simp [dot]
  unfold cosSim
  rw [hd, zero_div]

/-- The tied store lists as-is (timestamps already descending). -/
theorem listing_tied : get_all_embedded_commands exampleTied = exampleTied := by
  rfl

/-- The ranked store lists as-is (timestamps already descending). -/
theorem listing_ranked :
    get_all_embedded_commands exampleRanked = exampleRanked := by
  rfl

/-- Scores of the tied store against query vector `[1]`. -/
theorem sims_tied :
    exampleTied.map (fun r => cosSim [1] (r.embedding.getD [])) = [1, 1] := by
  simp [exampleTied, cosSim_one]

/-- Scores of the ranked store against query vector `[1]`. -/
theorem sims_ranked :
    exampleRanked.map (fun r => cosSim [1] (r.embedding.getD [])) = [1, 0] := by
  simp [exampleRanked, cosSim_one, cosSim_zero_vec]

/-- Stable ascending argsort of the tied scores keeps input order. -/
theorem argsort_tied : argsort [(1 : ℝ), 1] = [0, 1] := by
  have h01 : idxLe [(1 : ℝ), 1] 0 1 := Or.inr ⟨rfl, by norm_num⟩
  unfold argsort
  rw [show ([(1 : ℝ), 1] : List ℝ).length = 2 from rfl,
    show List.range 2 = [0, 1] from rfl]
  simp only [List.insertionSort, List.orderedInsert]
  rw [if_pos h01]

/-- Ascending argsort of the ranked scores puts the smaller score first. -/
theorem argsort_ranked : argsort [(1 : ℝ), 0] = [1, 0] := by
  have h01 : ¬ idxLe [(1 : ℝ), 0] 0 1 := by
    intro h
    rcases h with h | ⟨h, _⟩
    · exact absurd (show (1 : ℝ) < 0 from h) (by norm_num)
    · exact absurd (show (1 : ℝ) = 0 from h) (by norm_num)
  unfold argsort
  rw [show ([(1 : ℝ), 0] : List ℝ).length = 2 from rfl,
    show List.range 2 = [0, 1] from rfl]
  simp only [List.insertionSort, List.orderedInsert]
  rw [if_neg h01]

/-- Top indices of the tied scores with bound 10: reverse of the stable
ascending order, i.e. reverse store order. -/
theorem top_tied : top_indices [(1 : ℝ), 1] 10 = [1, 0] := by
  unfold top_indices
  rw [argsort_tied]
  rfl

/-- Top indices of the ranked scores with the negative bound `-1`: Python
slice semantics keep the first of two elements. -/
theorem top_ranked : top_indices [(1 : ℝ), 0] (-1) = [0] := by
  unfold top_indices
  rw [argsort_ranked]
  rfl

/-- Forward evaluation of `search` on a successful embed and nonempty
listing. -/
theorem search_eq_rank (f : EmbedFn) (q : String) (k : Int) (s : Store)
    (qv : List ℝ) (rest : List (List ℝ)) (hf : f [q] = .ok (qv :: rest))
    (hne : (get_all_embedded_commands s).isEmpty = false) :
    search f q k s = .ok (rank_results qv (get_all_embedded_commands s) k) := by
  unfold search
  rw [hf]
  show (if (get_all_embedded_commands s).isEmpty then
      (Except.ok [] : Except String (List SearchResult))
      else .ok (rank_results qv (get_all_embedded_commands s) k)) = _
  rw [hne]
  simp

/-- Full evaluation on the tied store: both scores are 1, and the result
order is `c1` before `c0` — the reverse of the store listing order. -/
theorem search_tied_eval :
    search constF "q" 10 exampleTied =
      .ok [⟨"c1", "", 3, 1⟩, ⟨"c0", "", 5, 1⟩] := by
  rw [search_eq_rank constF "q" 10 exampleTied [1] [] rfl
    (by rw [listing_tied]; rfl)]
  rw [listing_tied]
  show Except.ok ((top_indices
      (exampleTied.map fun r => cosSim [1] (r.embedding.getD [])) 10).map
      (mk_result exampleTied
        (exampleTied.map fun r => cosSim [1] (r.embedding.getD [])))) = _
  rw [sims_tied, top_tied]
  simp [mk_result, exampleTied, round4_one]

/-- Full evaluation on the ranked store with `max_results = -1`: one
result comes back. -/
theorem search_ranked_eval :
    search constF "q" (-1) exampleRanked = .ok [⟨"c0", "", 5, 1⟩] := by
  rw [search_eq_rank constF "q" (-1) exampleRanked [1] [] rfl
    (by rw [listing_ranked]; rfl)]
  rw [listing_ranked]
  show Except.ok ((top_indices
      (exampleRanked.map fun r => cosSim [1] (r.embedding.getD [])) (-1)).map
      (mk_result exampleRanked
        (exampleRanked.map fun r => cosSim [1] (r.embedding.getD [])))) = _
  rw [sims_ranked, top_ranked]
  simp [mk_result, exampleRanked, round4_one]

/-- C1, counterexample: the tied store lists `c0` before `c1` (store
order), both with raw similarity 1, yet `search` returns `c1` before `c0`:
equal-score results appear in *reverse* store order, refuting the stated
stable tie-break. -/
theorem tie_order_reverses_store_order :
    get_all_embedded_commands exampleTied =
      [⟨0, "c0", none, 5, some 6, some [1]⟩,
       ⟨1, "c1", none, 3, some 6, some [1]⟩] ∧
    search constF "q" 10 exampleTied =
      .ok [⟨"c1", "", 3, 1⟩, ⟨"c0", "", 5, 1⟩] :=
  ⟨listing_tied, search_tied_eval⟩

/-- Witness for the amended C1 theorem on the tied store with `k = 10`. -/
theorem search_sorted_desc_witness :
    ([⟨"c1", "", 3, 1⟩, ⟨"c0", "", 5, 1⟩] : List SearchResult).length ≤
      (10 : Int).toNat ∧
    ([⟨"c1", "", 3, 1⟩, ⟨"c0", "", 5, 1⟩] : List SearchResult).Pairwise
      (fun a b => b.similarity_score ≤ a.similarity_score) ∧
    ∃ qv rest sims, constF ["q"] = .ok (qv :: rest) ∧
      sims = (get_all_embedded_commands exampleTied).map
        (fun r => cosSim qv (r.embedding.getD [])) ∧
      ([⟨"c1", "", 3, 1⟩, ⟨"c0", "", 5, 1⟩] : List SearchResult) =
        (top_indices sims 10).map
          (mk_result (get_all_embedded_commands exampleTied) sims) ∧
      (top_indices sims 10).Pairwise
        (fun i j => sims.getD j 0 < sims.getD i 0 ∨
          (sims.getD j 0 = sims.getD i 0 ∧ j ≤ i)) :=
  search_sorted_desc constF "q" 10 exampleTied _ (by norm_num) search_tied_eval

/-! ## C7 — nonpositive `max_results` -/

/-- `argsort` permutes the index range, so it has the same length. -/
theorem argsort_length (xs : List ℝ) : (argsort xs).length = xs.length := by
  unfold argsort
  rw [(List.perm_insertionSort _ _).length_eq, List.length_range]

/-- C7 (amended): for `k ≤ 0` `search` never errors, but it does not
always return the empty list either: `k = 0` clamps to no results, while a
negative `k` hits Python's negative slice bound and returns the top
`N + k` results (all but the last `|k|`), clamped at 0. -/
theorem search_nonpositive_max_results (f : EmbedFn) (q : String) (k : Int)
    (s : Store) (qv : List ℝ) (rest : List (List ℝ))
    (hemb : f [q] = .ok (qv :: rest)) (hk : k ≤ 0) :
    ∃ rs, search f q k s = .ok rs ∧
      rs.length = if k = 0 then 0
        else (((get_all_embedded_commands s).length : Int) + k).toNat := by
  by_cases hc : (get_all_embedded_commands s).isEmpty
  · refine ⟨[], ?_, ?_⟩
    · unfold search
      rw [hemb]
      show (if (get_all_embedded_commands s).isEmpty then
          (Except.ok [] : Except String (List SearchResult))
          else .ok (rank_results qv (get_all_embedded_commands s) k)) = _
      rw [if_pos hc]
    · have h0 : (get_all_embedded_commands s).length = 0 := by
        rw [List.isEmpty_iff.mp hc]
        rfl
      rw [h0]
      by_cases hk0 : k = 0
      · rw [if_pos hk0]
        rfl
      · rw [if_neg hk0]
        simp only [List.length_nil]
        omega
  · have hne : (get_all_embedded_commands s).isEmpty = false :=
      Bool.not_eq_true _ ▸ hc
    refine ⟨rank_results qv (get_all_embedded_commands s) k,
      search_eq_rank f q k s qv rest hemb hne, ?_⟩
    show ((top_indices ((get_all_embedded_commands s).map
        (fun r => cosSim qv (r.embedding.getD []))) k).map
        (mk_result (get_all_embedded_commands s)
          ((get_all_embedded_commands s).map
            (fun r => cosSim qv (r.embedding.getD []))))).length = _
    rw [List.length_map]
    unfold top_indices pySlice
    by_cases hk0 : k = 0
    · rw [if_pos (by omega : (0 : Int) ≤ k), if_pos hk0, hk0]
      simp
    · rw [if_neg (by omega : ¬ (0 : Int) ≤ k), if_neg hk0]
      rw [List.length_take, List.length_reverse, argsort_length,
        List.length_map]
      exact min_eq_left (Int.toNat_le.mpr (by omega))

/-- Witness for the amended C7 theorem on the ranked store with `k = -1`:
one of the two records comes back. -/
theorem search_nonpositive_max_results_witness :
    ∃ rs, search constF "q" (-1) exampleRanked = .ok rs ∧
      rs.length = if (-1 : Int) = 0 then 0
        else (((get_all_embedded_commands exampleRanked).length : Int) +
          (-1)).toNat :=
  search_nonpositive_max_results constF "q" (-1) exampleRanked [1] [] rfl
    (by norm_num)

/-- C7, counterexample: `search` with `max_results = -1` on a two-record
store returns one result — neither an error nor the empty list. -/
theorem negative_max_results_returns_results :
    search constF "q" (-1) exampleRanked = .ok [⟨"c0", "", 5, 1⟩] ∧
    ([⟨"c0", "", 5, 1⟩] : List SearchResult) ≠ [] :=
  ⟨search_ranked_eval, by simp⟩

/-! ## C9 — result field guarantees -/

/-- C9: every result of a successful search carries a similarity score
inside `[-1, 1]` that is some raw cosine similarity rounded to 4 decimals,
and its directory comes from the stored record through `or ""` — the empty
string, never a null, when the stored directory is NULL. -/
theorem search_result_fields (f : EmbedFn) (q : String) (k : Int) (s : Store)
    (rs : List SearchResult) (h : search f q k s = .ok rs) :
    ∀ r ∈ rs, (-1 ≤ r.similarity_score ∧ r.similarity_score ≤ 1) ∧
      (∃ x, -1 ≤ x ∧ x ≤ 1 ∧ r.similarity_score = round4 x) ∧
      ∃ rec ∈ get_all_embedded_commands s,
        r.directory = rec.directory.getD "" ∧
        (rec.directory = none → r.directory = "") := by
  obtain ⟨qv, rest, hfq, hrs⟩ := search_ok_inv f q k s rs h
  intro r hr
  rw [hrs] at hr
  have hr' : r ∈ (top_indices ((get_all_embedded_commands s).map
      (fun r => cosSim qv (r.embedding.getD []))) k).map
      (mk_result (get_all_embedded_commands s)
        ((get_all_embedded_commands s).map
          (fun r => cosSim qv (r.embedding.getD [])))) := hr
  obtain ⟨i, hi, rfl⟩ := List.mem_map.mp hr'
  have hilt : i < ((get_all_embedded_commands s).map
      (fun r => cosSim qv (r.embedding.getD []))).length :=
    top_indices_mem_range _ k i hi
  have hilt' : i < (get_all_embedded_commands s).length := by
    rwa [List.length_map] at hilt
  have hsval : ((get_all_embedded_commands s).map
      (fun r => cosSim qv (r.embedding.getD []))).getD i 0 =
      cosSim qv (((get_all_embedded_commands s).getD i default).embedding.getD []) := by
    rw [List.getD_eq_getElem _ _ hilt, List.getD_eq_getElem _ _ hilt',
      List.getElem_map]
  have hx : -1 ≤ ((get_all_embedded_commands s).map
        (fun r => cosSim qv (r.embedding.getD []))).getD i 0 ∧
      ((get_all_embedded_commands s).map
        (fun r => cosSim qv (r.embedding.getD []))).getD i 0 ≤ 1 := by
    rw [hsval]
    exact cosSim_bounds qv _
  have hscore := round4_bounds _ hx.1 hx.2
  refine ⟨hscore, ⟨_, hx.1, hx.2, rfl⟩, (get_all_embedded_commands s).getD i default,
    ?_, rfl, ?_⟩
  · rw [List.getD_eq_getElem _ _ hilt']
    exact List.getElem_mem _
  · intro hnone
    simp only [mk_result, hnone, Option.getD_none]

/-- Witness for the C9 theorem at the first result of the tied-store
search. -/
theorem search_result_fields_witness :
    (-1 ≤ (1 : ℝ) ∧ (1 : ℝ) ≤ 1) ∧
    (∃ x, -1 ≤ x ∧ x ≤ 1 ∧ (1 : ℝ) = round4 x) ∧
    ∃ rec ∈ get_all_embedded_commands exampleTied,
      "" = rec.directory.getD "" ∧ (rec.directory = none → "" = "") :=
  search_result_fields constF "q" 10 exampleTied _ search_tied_eval
    ⟨"c1", "", 3, 1⟩ (List.mem_cons_self _ _)

end ICommand
